import Mathlib

/-!
Shallow embedding of the dependency-propagation engine of the citus snapshot
(commands/dependency.c, commands/type.c, catalog/distobjectaddress.c,
worker/worker_create_if_not_exist.c) together with proofs about the claims of
the specification.  Catalog state (pg_depend, pg_dist_object, pg_enum) is
modelled as explicit data; the host engine's pure lookups (getObjectIdentity,
get_typtype, name lookups) are function parameters of the environment.
-/

set_option linter.unusedVariables false

/-- Postgres ObjectAddress: (classId, objectId, objectSubId). -/
structure ObjectAddress where
  classId : Nat
  objectId : Nat
  objectSubId : Nat
deriving DecidableEq

/-- Dependency edge kinds of pg_depend (deptype column). -/
inductive DepType where
  | normal
  | extension
  | internal
  | auto
  | pin
deriving DecidableEq

/-- A row of pg_depend. -/
structure DependRow where
  classid : Nat
  objid : Nat
  objsubid : Nat
  refclassid : Nat
  refobjid : Nat
  refobjsubid : Nat
  deptype : DepType
deriving DecidableEq

/-- Result of get_typtype for a type oid. -/
inductive TypType where
  | enum
  | composite
  | base
  | pseudo
deriving DecidableEq

/-- The catalog state and host-engine lookups that dependency.c reads:
pg_depend rows, pg_dist_object rows (classid, identifier), get_typtype and
getObjectIdentity. -/
structure PgEnv where
  depend : List DependRow
  distObjects : List (Nat × String)
  typtype : Nat → TypType
  identity : ObjectAddress → String

def NamespaceRelationId : Nat := 2615

def TypeRelationId : Nat := 1247

def RelationRelationId : Nat := 1259

/-- Object classes distinguished by getObjectClass that the code dispatches on. -/
inductive ObjectClass where
  | schema
  | typ
  | other
deriving DecidableEq

/-- getObjectClass: classify an address by its classId. -/
def getObjectClass (addr : ObjectAddress) : ObjectClass :=
  if addr.classId = NamespaceRelationId then ObjectClass.schema
  else if addr.classId = TypeRelationId then ObjectClass.typ
  else ObjectClass.other

/-- IsInPgDistObject: scan pg_dist_object for classid = addr.classId and
identifier = getObjectIdentity(addr). -/
def IsInPgDistObject (env : PgEnv) (addr : ObjectAddress) : Bool :=
  env.distObjects.any (fun r => r.1 == addr.classId && r.2 == env.identity addr)

/-- IsObjectAddressOwnedByExtension: scan pg_depend rows of the target for an
edge with deptype = DEPENDENCY_EXTENSION. -/
def IsObjectAddressOwnedByExtension (env : PgEnv) (target : ObjectAddress) : Bool :=
  env.depend.any (fun row =>
    row.classid == target.classId && row.objid == target.objectId &&
      row.deptype == DepType.extension)

/-- ShouldFollowDependency: skip extension-owned and already-distributed
objects, then follow schemas and enum/composite types only. -/
def ShouldFollowDependency (env : PgEnv) (toFollow : ObjectAddress) : Bool :=
  if IsObjectAddressOwnedByExtension env toFollow then false
  else if IsInPgDistObject env toFollow then false
  else
    match getObjectClass toFollow with
    | ObjectClass.schema => true
    | ObjectClass.typ =>
      match env.typtype toFollow.objectId with
      | TypType.enum => true
      | TypType.composite => true
      | _ => false
    | ObjectClass.other => false

/-- IsObjectAddressInList: equality on classId and objectId, with the
sub-object rule that a matching objectSubId or a zero objectSubId entry counts. -/
def IsObjectAddressInList (findAddress : ObjectAddress)
    (addressList : List ObjectAddress) : Bool :=
  addressList.any (fun currentAddress =>
    findAddress.classId == currentAddress.classId &&
      findAddress.objectId == currentAddress.objectId &&
      (findAddress.objectSubId == currentAddress.objectSubId ||
        currentAddress.objectSubId == 0))

/-- ObjectAddressSet(dependency, refclassid, refobjid): the address built for a
pg_depend row's referenced object; objectSubId is set to zero. -/
def refAddr (row : DependRow) : ObjectAddress :=
  { classId := row.refclassid, objectId := row.refobjid, objectSubId := 0 }

/-- The pg_depend rows returned by the depender-index scan for a target:
classid and objid must match (objsubid is not part of the scan key). -/
def rowsFor (env : PgEnv) (target : ObjectAddress) : List DependRow :=
  env.depend.filter (fun row =>
    row.classid == target.classId && row.objid == target.objectId)

/-- The row loop of GetDependenciesForObject: for each scanned pg_depend row,
skip non-Normal edges, skip a dependency already present in the accumulator,
skip dependencies that should not be followed; otherwise recurse first (via
`recur`, the depth-first call) and append the dependency afterwards. -/
def GetDependenciesRows (env : PgEnv)
    (recur : ObjectAddress → List ObjectAddress → Option (List ObjectAddress)) :
    List DependRow → List ObjectAddress → Option (List ObjectAddress)
  | [], acc => some acc
  | row :: rest, acc =>
    if row.deptype = DepType.normal then
      if IsObjectAddressInList (refAddr row) acc then
        GetDependenciesRows env recur rest acc
      else if ShouldFollowDependency env (refAddr row) then
        match recur (refAddr row) acc with
        | none => none
        | some acc2 => GetDependenciesRows env recur rest (acc2 ++ [refAddr row])
      else
        GetDependenciesRows env recur rest acc
    else
      GetDependenciesRows env recur rest acc

/-- GetDependenciesForObject: depth-first walk of pg_depend accumulating the
dependency list.  The C function recurses on the host call stack; the fuel
argument makes the recursion depth explicit, `none` meaning the depth bound was
exceeded (the C code would still be recursing). -/
def GetDependenciesForObject : Nat → PgEnv → ObjectAddress →
    List ObjectAddress → Option (List ObjectAddress)
  | 0, _, _, _ => none
  | fuel + 1, env, target, acc =>
    GetDependenciesRows env (fun d a => GetDependenciesForObject fuel env d a)
      (rowsFor env target) acc

/-- A citus DistObjectAddress: classId plus the portable identifier string. -/
structure DistObjectAddress where
  classId : Nat
  identifier : String
deriving DecidableEq

/-- getDistObjectAddressFromPg: pair the classId with getObjectIdentity of the
address.  The C function has no error path for any class of object. -/
def getDistObjectAddressFromPg (identity : ObjectAddress → String)
    (address : ObjectAddress) : DistObjectAddress :=
  { classId := address.classId, identifier := identity address }

/-- Failure modes of the object-address codec. -/
inductive CodecError where
  | unsupportedKind
  | notFound
deriving DecidableEq

/-- getObjectAddresFromCitus: resolve the identifier against the local catalog
(`lookupType` models LookupTypeNameOid with missing_ok = false, `lookupNamespace`
models get_namespace_oid with missing_ok = false); any classId other than types
and namespaces raises "unrecognized object class". -/
def getObjectAddresFromCitus (lookupType : String → Option Nat)
    (lookupNamespace : String → Option Nat) (distAddress : DistObjectAddress) :
    Except CodecError ObjectAddress :=
  if distAddress.classId = TypeRelationId then
    match lookupType distAddress.identifier with
    | some typeOid => Except.ok ⟨TypeRelationId, typeOid, 0⟩
    | none => Except.error CodecError.notFound
  else if distAddress.classId = NamespaceRelationId then
    match lookupNamespace distAddress.identifier with
    | some namespaceOid => Except.ok ⟨NamespaceRelationId, namespaceOid, 0⟩
    | none => Except.error CodecError.notFound
  else Except.error CodecError.unsupportedKind

/-- Whether an address is of one of the spec's supported kinds: Namespace,
EnumType or CompositeType (type kind refined through get_typtype). -/
def isSupportedObjectKind (typtype : Nat → TypType) (addr : ObjectAddress) : Bool :=
  match getObjectClass addr with
  | ObjectClass.schema => true
  | ObjectClass.typ =>
    match typtype addr.objectId with
    | TypType.enum => true
    | TypType.composite => true
    | _ => false
  | ObjectClass.other => false

/-- Modelled from the spec: `ToPortable(ref) -> PortableIdentifier` "must never
fail for supported kinds; fails with UnsupportedKind otherwise".  This is the
spec-shaped contract, written to be compared with the source function
getDistObjectAddressFromPg. -/
def toPortableSpec (typtype : Nat → TypType) (identity : ObjectAddress → String)
    (address : ObjectAddress) : Except CodecError DistObjectAddress :=
  if isSupportedObjectKind typtype address then
    Except.ok { classId := address.classId, identifier := identity address }
  else Except.error CodecError.unsupportedKind

/-- recordObjectDistributed / InsertIntoPgDistObject: form a tuple and insert it
into pg_dist_object unconditionally (CatalogTupleInsert); there is no
existence check before the insert. -/
def recordObjectDistributed (catalog : List DistObjectAddress)
    (distAddress : DistObjectAddress) : List DistObjectAddress :=
  catalog ++ [distAddress]

/-- isObjectDistributed: scan pg_dist_object for classid and identifier. -/
def isObjectDistributed (catalog : List DistObjectAddress)
    (distAddress : DistObjectAddress) : Bool :=
  catalog.any (fun r =>
    r.classId == distAddress.classId && r.identifier == distAddress.identifier)

/-- quote_literal_cstr: wrap a value in single quotes (escaping of embedded
quotes is the host engine's concern and is elided). -/
def quote_literal_cstr (s : String) : String := "'" ++ s ++ "'"

/-- A row of pg_enum. -/
structure PgEnumRow where
  enumtypid : Nat
  enumsortorder : Nat
  enumlabel : String
deriving DecidableEq

/-- Byte-wise comparison of label characters, as the btree name_ops ordering of
the pg_enum (enumtypid, enumlabel) index compares labels. -/
def charListLt : List Char → List Char → Bool
  | [], [] => false
  | [], _ :: _ => true
  | _ :: _, [] => false
  | a :: as, b :: bs =>
    if a.toNat < b.toNat then true
    else if b.toNat < a.toNat then false
    else charListLt as bs

def labelLt (a b : String) : Bool := charListLt a.data b.data

def insertByLabel (r : PgEnumRow) : List PgEnumRow → List PgEnumRow
  | [] => [r]
  | s :: rest =>
    if labelLt s.enumlabel r.enumlabel then s :: insertByLabel r rest
    else r :: s :: rest

/-- Rows in the order the EnumTypIdLabelIndexId index scan returns them for a
single enumtypid: sorted by enumlabel. -/
def sortByLabel : List PgEnumRow → List PgEnumRow
  | [] => []
  | r :: rest => insertByLabel r (sortByLabel rest)

def insertBySortOrder (r : PgEnumRow) : List PgEnumRow → List PgEnumRow
  | [] => [r]
  | s :: rest =>
    if s.enumsortorder < r.enumsortorder then s :: insertBySortOrder r rest
    else r :: s :: rest

def sortBySortOrder : List PgEnumRow → List PgEnumRow
  | [] => []
  | r :: rest => insertBySortOrder r (sortBySortOrder rest)

/-- enum_vals_list: scan pg_enum for the members of the target enum type using
the EnumTypIdLabelIndexId index (so tuples arrive ordered by label) and collect
the label names. -/
def enum_vals_list (pgEnum : List PgEnumRow) (typeOid : Nat) : List String :=
  (sortByLabel (pgEnum.filter (fun r => r.enumtypid == typeOid))).map
    (fun r => r.enumlabel)

/-- Modelled from the spec: the enum's stored definition order is ascending
enumsortorder (the order the labels were declared in); used to compare with
what enum_vals_list produces. -/
def enumValsBySortOrder (pgEnum : List PgEnumRow) (typeOid : Nat) : List String :=
  (sortBySortOrder (pgEnum.filter (fun r => r.enumtypid == typeOid))).map
    (fun r => r.enumlabel)

/-- appendStringList: comma-separate the values, each quoted as a literal. -/
def appendStringList (strings : List String) : String :=
  String.intercalate ", " (strings.map quote_literal_cstr)

/-- The parts of a CreateEnumStmt the deparser reads: the (already qualified
and quoted) identifier and the label values. -/
structure CreateEnumStmtD where
  typeName : String
  vals : List String
deriving DecidableEq

/-- appendCreateEnumStmt / deparse_create_enum_stmt: CREATE TYPE ... AS ENUM
with the quoted label list. -/
def deparse_create_enum_stmt (stmt : CreateEnumStmtD) : String :=
  "CREATE TYPE " ++ stmt.typeName ++ " AS ENUM (" ++ appendStringList stmt.vals ++ ");"

/-- RecreateEnumStmt: rebuild a creation statement for an existing enum from
pg_enum; `identifier` models format_type_be_qualified. -/
def RecreateEnumStmt (pgEnum : List PgEnumRow) (identifier : Nat → String)
    (typeOid : Nat) : CreateEnumStmtD :=
  { typeName := identifier typeOid, vals := enum_vals_list pgEnum typeOid }

/-- The fields of AlterEnumStmt that PlanAlterEnumStmt and the deparser read.
oldVal = some v means a RENAME VALUE statement (AlterEnumIsRename); oldVal =
none means ADD VALUE (AlterEnumIsAddValue). -/
structure AlterEnumStmt where
  oldVal : Option String
  newVal : String
  newValNeighbor : Option String
  newValIsAfter : Bool
  skipIfNewValExists : Bool
deriving DecidableEq

/-- appendAlterEnumStmt: ALTER TYPE <identifier> followed by RENAME VALUE or
ADD VALUE [IF NOT EXISTS] with optional BEFORE/AFTER neighbor. -/
def appendAlterEnumStmt (identifier : String) (stmt : AlterEnumStmt) : String :=
  let base := "ALTER TYPE " ++ identifier
  match stmt.oldVal with
  | some oldVal =>
    base ++ " RENAME VALUE " ++ quote_literal_cstr oldVal ++ " TO " ++
      quote_literal_cstr stmt.newVal ++ ";"
  | none =>
    let s := base ++ " ADD VALUE " ++
      (if stmt.skipIfNewValExists then "IF NOT EXISTS " else "") ++
      quote_literal_cstr stmt.newVal
    let s :=
      match stmt.newValNeighbor with
      | some neighbor =>
        s ++ " " ++ (if stmt.newValIsAfter then "AFTER" else "BEFORE") ++ " " ++
          quote_literal_cstr neighbor
      | none => s
    s ++ ";"

def deparse_alter_enum_stmt (identifier : String) (stmt : AlterEnumStmt) : String :=
  appendAlterEnumStmt identifier stmt

/-- Per-node outcome of executing the optimistic ADD VALUE command. -/
inductive RemoteOutcome where
  | ok
  | valueAlreadyExists
  | failure
deriving DecidableEq

/-- Modelled from the spec: SendBareOptionalCommandListToWorkersAsUser is not
part of the sources (only its caller is).  Per the spec the optimistic send
"tolerates value-already-exists outcomes per node": it reports RESPONSE_OKAY
exactly when every node either applied the command or reported that the value
already exists. -/
def SendBareOptionalCommandListToWorkersAsUser (outcomes : List RemoteOutcome) : Bool :=
  outcomes.all (fun o => o == RemoteOutcome.ok || o == RemoteOutcome.valueAlreadyExists)

/-- The observable outcome of PlanAlterEnumStmt: whether an error aborted the
statement, the errdetail retry statement of the WARNING if one was raised,
whether the transactional dispatch path (sequential mode plus
SendCommandToWorkersAsUser) was used, and the statement as left behind. -/
structure PlanAlterEnumResult where
  raisedError : Bool
  warningDetail : Option String
  usedTransactionalProtocol : Bool
  stmtAfter : AlterEnumStmt
deriving DecidableEq

/-- PlanAlterEnumStmt: non-distributed types are ignored; ADD VALUE runs
optimistically outside the transactional protocol, and on a non-okay result
deparses the statement with skipIfNewValExists set, restores the flag and
raises a WARNING carrying the idempotent statement; other alterations use the
transactional dispatch path. -/
def PlanAlterEnumStmt (typeIsDistributed : Bool) (identifier : String)
    (outcomes : List RemoteOutcome) (stmt : AlterEnumStmt) : PlanAlterEnumResult :=
  if !typeIsDistributed then
    { raisedError := false, warningDetail := none,
      usedTransactionalProtocol := false, stmtAfter := stmt }
  else if stmt.oldVal.isNone then
    let result := SendBareOptionalCommandListToWorkersAsUser outcomes
    if result then
      { raisedError := false, warningDetail := none,
        usedTransactionalProtocol := false, stmtAfter := stmt }
    else
      let oldSkipIfNewValueExists := stmt.skipIfNewValExists
      let stmtIne := { stmt with skipIfNewValExists := true }
      let alterEnumStmtIfNotExistsSql := deparse_alter_enum_stmt identifier stmtIne
      let stmtRestored := { stmtIne with skipIfNewValExists := oldSkipIfNewValueExists }
      { raisedError := false, warningDetail := some alterEnumStmtIfNotExistsSql,
        usedTransactionalProtocol := false, stmtAfter := stmtRestored }
  else
    { raisedError := false, warningDetail := none,
      usedTransactionalProtocol := true, stmtAfter := stmt }

/-- A worker node as the node directory reports it. -/
structure WorkerNode where
  workerName : String
  workerPort : Nat
deriving DecidableEq

/-- The external DDL renderers GetDependencyCreateDDLCommands dispatches to:
CreateSchemaDDLCommand (which may return NULL, i.e. nothing to create) and
CreateTypeDDLCommandsIdempotent. -/
structure DdlEnv where
  schemaDDL : Nat → Option String
  typeDDL : ObjectAddress → List String

/-- GetDependencyCreateDDLCommands: schemas render to at most one command,
types to their idempotent command list, everything else to no commands. -/
def GetDependencyCreateDDLCommands (denv : DdlEnv) (dependency : ObjectAddress) :
    List String :=
  match getObjectClass dependency with
  | ObjectClass.schema =>
    match denv.schemaDDL dependency.objectId with
    | none => []
    | some schemaDDLCommand => [schemaDDLCommand]
  | ObjectClass.typ => denv.typeDDL dependency
  | ObjectClass.other => []

/-- What EnsureDependenciesExistsOnAllNodes observably did: the (node,
statement) executions in order, the objects recorded in pg_dist_object, and
the connections opened. -/
structure PropagationTrace where
  executed : List (WorkerNode × String)
  recorded : List ObjectAddress
  opened : List WorkerNode
deriving DecidableEq

/-- ExecuteCriticalRemoteCommandList over every open connection: the commands
sent, connection-major. -/
def execOnConnections (connections : List WorkerNode) (ddlCommands : List String) :
    List (WorkerNode × String) :=
  match connections with
  | [] => []
  | connection :: rest =>
    ddlCommands.map (fun c => (connection, c)) ++ execOnConnections rest ddlCommands

/-- The dependency loop of EnsureDependenciesExistsOnAllNodes: skip
dependencies with no DDL commands; on the first command to execute enumerate
the active nodes, breaking out of the whole loop if there are none; otherwise
execute the commands on every connection and record the dependency as
distributed. -/
def EnsureDependenciesLoop (denv : DdlEnv) (workers : List WorkerNode) :
    List ObjectAddress → Option (List WorkerNode) → PropagationTrace →
      PropagationTrace
  | [], _, trace => trace
  | dependency :: rest, connections, trace =>
    let ddlCommands := GetDependencyCreateDDLCommands denv dependency
    if ddlCommands.length ≤ 0 then
      EnsureDependenciesLoop denv workers rest connections trace
    else
      match connections with
      | none =>
        if workers.length ≤ 0 then trace
        else
          EnsureDependenciesLoop denv workers rest (some workers)
            { executed := trace.executed ++ execOnConnections workers ddlCommands
              recorded := trace.recorded ++ [dependency]
              opened := trace.opened ++ workers }
      | some conns =>
        EnsureDependenciesLoop denv workers rest (some conns)
          { executed := trace.executed ++ execOnConnections conns ddlCommands
            recorded := trace.recorded ++ [dependency]
            opened := trace.opened }

/-- EnsureDependenciesExistsOnAllNodes: resolve the dependency list for the
target (with explicit fuel) and run the propagation loop over it with no
connections open initially. -/
def EnsureDependenciesExistsOnAllNodes (env : PgEnv) (denv : DdlEnv)
    (workers : List WorkerNode) (target : ObjectAddress) (fuel : Nat) :
    Option PropagationTrace :=
  (GetDependenciesForObject fuel env target []).map (fun dependencies =>
    EnsureDependenciesLoop denv workers dependencies none
      { executed := [], recorded := [], opened := [] })

/-- Errors raised by the worker-side functions. -/
inductive PgError where
  | typeDoesNotExist
  | unsupportedCreateStatement
deriving DecidableEq

/-- The local type-name lookup of a worker node: qualified name to type oid. -/
structure WorkerEnv where
  lookupTypeOid : List String → Option Nat

/-- InvalidOid. -/
def InvalidOid : Nat := 0

def OidIsValid (oid : Nat) : Bool := oid != InvalidOid

/-- LookupTypeNameOid: resolve a type name; with missingOk the missing case
yields InvalidOid, without it the lookup raises "type does not exist". -/
def LookupTypeNameOid (wenv : WorkerEnv) (names : List String) (missingOk : Bool) :
    Except PgError Nat :=
  match wenv.lookupTypeOid names with
  | some typeOid => Except.ok typeOid
  | none =>
    if missingOk then Except.ok InvalidOid
    else Except.error PgError.typeDoesNotExist

/-- The part of a CompositeTypeStmt the worker reads: the qualified name. -/
structure CompositeTypeStmt where
  typevar : List String
deriving DecidableEq

/-- The part of a CreateEnumStmt the worker reads: the qualified name. -/
structure CreateEnumStmt where
  typeName : List String
deriving DecidableEq

/-- CompositeTypeExists: look the name up with missing_ok = true and test the
resulting oid. -/
def CompositeTypeExists (wenv : WorkerEnv) (stmt : CompositeTypeStmt) :
    Except PgError Bool := do
  let typeOid ← LookupTypeNameOid wenv stmt.typevar true
  pure (OidIsValid typeOid)

/-- EnumTypeExists: look the name up with missing_ok = false (which raises if
the type is absent) and test the resulting oid. -/
def EnumTypeExists (wenv : WorkerEnv) (stmt : CreateEnumStmt) :
    Except PgError Bool := do
  let typeOid ← LookupTypeNameOid wenv stmt.typeName false
  pure (OidIsValid typeOid)

/-- The statements worker_create_if_not_exists may receive after parsing. -/
inductive ParseTree where
  | compositeTypeStmt (stmt : CompositeTypeStmt)
  | createEnumStmt (stmt : CreateEnumStmt)
  | otherStmt
deriving DecidableEq

/-- What worker_create_if_not_exists returned and whether it ran the
statement through CitusProcessUtility. -/
structure WorkerResult where
  returned : Bool
  executedStatement : Bool
deriving DecidableEq

/-- worker_create_if_not_exists: return false when the type of the statement's
name already exists, execute the statement and return true otherwise, and
raise for unsupported statement kinds. -/
def worker_create_if_not_exists (wenv : WorkerEnv) (parseTree : ParseTree) :
    Except PgError WorkerResult :=
  match parseTree with
  | ParseTree.compositeTypeStmt stmt => do
    let exists_ ← CompositeTypeExists wenv stmt
    if exists_ then pure { returned := false, executedStatement := false }
    else pure { returned := true, executedStatement := true }
  | ParseTree.createEnumStmt stmt => do
    let exists_ ← EnumTypeExists wenv stmt
    if exists_ then pure { returned := false, executedStatement := false }
    else pure { returned := true, executedStatement := true }
  | ParseTree.otherStmt => Except.error PgError.unsupportedCreateStatement

/-- The (classId, objectId) key of an address, the identity the resolver
de-duplicates on. -/
def addrKey (a : ObjectAddress) : Nat × Nat := (a.classId, a.objectId)

/-- Key-level membership: some entry of the list has the same classId and
objectId. -/
def memKey (b : ObjectAddress) (l : List ObjectAddress) : Bool :=
  l.any (fun c => b.classId == c.classId && b.objectId == c.objectId)

/-- Every entry of the list is a whole-object address (objectSubId zero). -/
def Sub0 (l : List ObjectAddress) : Prop := ∀ x ∈ l, x.objectSubId = 0

/-- No two entries of the list share their (classId, objectId) key. -/
def NoDupKey (l : List ObjectAddress) : Prop :=
  l.Pairwise (fun a b => addrKey a ≠ addrKey b)

/-- a depends on b through a Normal pg_depend edge. -/
def NormalEdge (env : PgEnv) (a b : ObjectAddress) : Prop :=
  ∃ row ∈ env.depend, row.classid = a.classId ∧ row.objid = a.objectId ∧
    row.deptype = DepType.normal ∧ refAddr row = b

/-- A Normal edge whose dependency the resolver would follow. -/
def FollowEdge (env : PgEnv) (a b : ObjectAddress) : Prop :=
  NormalEdge env a b ∧ ShouldFollowDependency env b = true

/-- l2 extends l1 at the end (the accumulator only ever grows by appends). -/
def ListPrefix (l1 l2 : List ObjectAddress) : Prop := ∃ t, l2 = l1 ++ t

/-- Everything appended after the accumulator has its followed dependencies
key-present strictly before it in the list. -/
def TopoInv (env : PgEnv) (acc res : List ObjectAddress) : Prop :=
  ∀ l1 a l2, res = l1 ++ a :: l2 → acc.length ≤ l1.length →
    ∀ b, FollowEdge env a b → memKey b l1 = true

/-- rank witnesses that following Normal edges strictly descends: the
acyclicity assumption on the followed sub-graph. -/
@[reducible] def RankHyp (env : PgEnv) (rank : Nat × Nat → Nat) : Prop :=
  ∀ row ∈ env.depend, row.deptype = DepType.normal →
    ShouldFollowDependency env (refAddr row) = true →
    rank (row.refclassid, row.refobjid) < rank (row.classid, row.objid)

/-- The joint invariant of one row-loop call for a target: the accumulator is
extended at the end; new entries are followed whole-object addresses of
strictly smaller rank than the target; subId-zero-ness and key-disjointness
are preserved; the topological invariant holds; and every followed Normal row
of the processed row list ends up key-present in the result. -/
def RowsOut (env : PgEnv) (rank : Nat × Nat → Nat) (target : ObjectAddress)
    (rows : List DependRow) (acc res : List ObjectAddress) : Prop :=
  ListPrefix acc res ∧
  (∀ x ∈ res, x ∉ acc →
    ShouldFollowDependency env x = true ∧ x.objectSubId = 0 ∧
      rank (addrKey x) < rank (addrKey target)) ∧
  (Sub0 acc → Sub0 res) ∧
  (Sub0 acc → NoDupKey acc → NoDupKey res) ∧
  TopoInv env acc res ∧
  (∀ row ∈ rows, row.deptype = DepType.normal →
    ShouldFollowDependency env (refAddr row) = true →
    memKey (refAddr row) res = true)

/-- A three-object chain store for witnesses: T depends on A and B, A depends
on B; all three are composite types with Normal edges. -/
def addrT : ObjectAddress := ⟨TypeRelationId, 100, 0⟩

def addrA : ObjectAddress := ⟨TypeRelationId, 101, 0⟩

def addrB : ObjectAddress := ⟨TypeRelationId, 102, 0⟩

def rowTA : DependRow := ⟨TypeRelationId, 100, 0, TypeRelationId, 101, 0, DepType.normal⟩

def rowTB : DependRow := ⟨TypeRelationId, 100, 0, TypeRelationId, 102, 0, DepType.normal⟩

def rowAB : DependRow := ⟨TypeRelationId, 101, 0, TypeRelationId, 102, 0, DepType.normal⟩

def env1 : PgEnv :=
  { depend := [rowTA, rowTB, rowAB]
    distObjects := []
    typtype := fun _ => TypType.composite
    identity := fun _ => "" }

/-- A rank function for env1, descending along its edges. -/
def rank1 : Nat × Nat → Nat := fun k => 300 - k.2

/-- A store whose Normal edges form a two-cycle among composite types:
A depends on B and B depends on A. -/
def addrCycA : ObjectAddress := ⟨TypeRelationId, 200, 0⟩

def addrCycB : ObjectAddress := ⟨TypeRelationId, 201, 0⟩

def rowCycAB : DependRow :=
  ⟨TypeRelationId, 200, 0, TypeRelationId, 201, 0, DepType.normal⟩

def rowCycBA : DependRow :=
  ⟨TypeRelationId, 201, 0, TypeRelationId, 200, 0, DepType.normal⟩

def envCyc : PgEnv :=
  { depend := [rowCycAB, rowCycBA]
    distObjects := []
    typtype := fun _ => TypType.composite
    identity := fun _ => "" }

/-- A store for the exclusion witness: the target T depends on an
extension-owned type E and on a type D already in pg_dist_object. -/
def addrE : ObjectAddress := ⟨TypeRelationId, 301, 0⟩

def addrD : ObjectAddress := ⟨TypeRelationId, 302, 0⟩

def envC4 : PgEnv :=
  { depend := [⟨TypeRelationId, 300, 0, TypeRelationId, 301, 0, DepType.normal⟩,
               ⟨TypeRelationId, 300, 0, TypeRelationId, 302, 0, DepType.normal⟩,
               ⟨TypeRelationId, 301, 0, 3079, 7000, 0, DepType.extension⟩]
    distObjects := [(TypeRelationId, "public.d")]
    typtype := fun _ => TypType.composite
    identity := fun a => if a.objectId = 302 then "public.d" else "" }

def addrC4T : ObjectAddress := ⟨TypeRelationId, 300, 0⟩

/-- pg_enum rows of an enum declared as ('b', 'a'): label 'b' has sort order
1, label 'a' has sort order 2. -/
def pgEnum0 : List PgEnumRow := [⟨500, 1, "b"⟩, ⟨500, 2, "a"⟩]

theorem rows_skip_nonnormal (env : PgEnv) (recur) (row : DependRow) (rest acc)
    (h : ¬ row.deptype = DepType.normal) :
    GetDependenciesRows env recur (row :: rest) acc =
      GetDependenciesRows env recur rest acc := by
  simp [GetDependenciesRows, h]

theorem rows_skip_inList (env : PgEnv) (recur) (row : DependRow) (rest acc)
    (h1 : row.deptype = DepType.normal)
    (h2 : IsObjectAddressInList (refAddr row) acc = true) :
    GetDependenciesRows env recur (row :: rest) acc =
      GetDependenciesRows env recur rest acc := by
  simp [GetDependenciesRows, h1, h2]

theorem rows_skip_notFollow (env : PgEnv) (recur) (row : DependRow) (rest acc)
    (h1 : row.deptype = DepType.normal)
    (h2 : IsObjectAddressInList (refAddr row) acc = false)
    (h3 : ShouldFollowDependency env (refAddr row) = false) :
    GetDependenciesRows env recur (row :: rest) acc =
      GetDependenciesRows env recur rest acc := by
  simp [GetDependenciesRows, h1, h2, h3]

theorem rows_follow (env : PgEnv) (recur) (row : DependRow) (rest acc)
    (h1 : row.deptype = DepType.normal)
    (h2 : IsObjectAddressInList (refAddr row) acc = false)
    (h3 : ShouldFollowDependency env (refAddr row) = true) :
    GetDependenciesRows env recur (row :: rest) acc =
      match recur (refAddr row) acc with
      | none => none
      | some acc2 => GetDependenciesRows env recur rest (acc2 ++ [refAddr row]) := by
  simp [GetDependenciesRows, h1, h2, h3]

theorem listPrefix_refl (l : List ObjectAddress) : ListPrefix l l :=
  ⟨[], (List.append_nil l).symm⟩

theorem listPrefix_trans {a b c : List ObjectAddress} (h1 : ListPrefix a b)
    (h2 : ListPrefix b c) : ListPrefix a c := by
  obtain ⟨t1, rfl⟩ := h1
  obtain ⟨t2, rfl⟩ := h2
  exact ⟨t1 ++ t2, List.append_assoc a t1 t2⟩

theorem listPrefix_append (l t : List ObjectAddress) : ListPrefix l (l ++ t) := ⟨t, rfl⟩

theorem mem_of_listPrefix {l l' : List ObjectAddress} {x : ObjectAddress}
    (h : ListPrefix l l') (hx : x ∈ l) : x ∈ l' := by
  obtain ⟨t, rfl⟩ := h
  exact List.mem_append_left t hx

theorem memKey_mono {l l' : List ObjectAddress} {b : ObjectAddress}
    (h : ListPrefix l l') (hb : memKey b l = true) : memKey b l' = true := by
  obtain ⟨t, rfl⟩ := h
  simp only [memKey, List.any_append, Bool.or_eq_true]
  exact Or.inl hb

theorem memKey_of_mem {l : List ObjectAddress} {a : ObjectAddress} (h : a ∈ l) :
    memKey a l = true :=
  List.any_eq_true.mpr ⟨a, h, by simp⟩

theorem memKey_iff {b : ObjectAddress} {l : List ObjectAddress} :
    memKey b l = true ↔ ∃ c ∈ l, addrKey c = addrKey b := by
  simp only [memKey, List.any_eq_true, Bool.and_eq_true, beq_iff_eq, addrKey,
    Prod.mk.injEq]
  constructor
  · rintro ⟨c, hc, h1, h2⟩
    exact ⟨c, hc, h1.symm, h2.symm⟩
  · rintro ⟨c, hc, h1, h2⟩
    exact ⟨c, hc, h1.symm, h2.symm⟩

theorem inList_memKey {b : ObjectAddress} {l : List ObjectAddress}
    (h : IsObjectAddressInList b l = true) : memKey b l = true := by
  simp only [IsObjectAddressInList, List.any_eq_true, Bool.and_eq_true] at h
  obtain ⟨c, hc, ⟨h1, h2⟩, _⟩ := h
  exact List.any_eq_true.mpr ⟨c, hc, by simp [h1, h2]⟩

theorem inList_false_keys {dep : ObjectAddress} {l : List ObjectAddress}
    (h : IsObjectAddressInList dep l = false) (hs : Sub0 l) :
    ∀ c ∈ l, addrKey c ≠ addrKey dep := by
  intro c hc he
  have hcc : c.classId = dep.classId ∧ c.objectId = dep.objectId := by
    simpa [addrKey, Prod.mk.injEq] using he
  have hsub : c.objectSubId = 0 := hs c hc
  have : IsObjectAddressInList dep l = true :=
    List.any_eq_true.mpr ⟨c, hc, by simp [hcc.1, hcc.2, hsub]⟩
  rw [this] at h
  cases h

theorem topoInv_refl (env : PgEnv) (acc : List ObjectAddress) : TopoInv env acc acc := by
  intro l1 a l2 heq hlen b hf
  have : acc.length = l1.length + 1 + l2.length := by
    rw [heq]; simp [List.length_append]; omega
  omega

theorem topoInv_append (env : PgEnv) {acc acc2 : List ObjectAddress}
    {dep : ObjectAddress} (h1 : TopoInv env acc acc2)
    (h2 : ∀ b, FollowEdge env dep b → memKey b acc2 = true) :
    TopoInv env acc (acc2 ++ [dep]) := by
  intro l1 a l2 heq hlen b hf
  rcases List.eq_nil_or_concat l2 with h | ⟨l2', x, rfl⟩
  · subst h
    have hl : acc2.length = l1.length := by
      have := congrArg List.length heq
      simp [List.length_append] at this
      omega
    obtain ⟨hacc, hda⟩ := List.append_inj heq hl
    have ha : a = dep := by
      have h := hda
      simp at h
      exact h.symm
    subst hacc
    exact h2 b (ha ▸ hf)
  · have heq' : acc2 ++ [dep] = (l1 ++ a :: l2') ++ [x] := by
      rw [heq]; simp
    have hlen' : ([dep] : List ObjectAddress).length = [x].length := by simp
    obtain ⟨hacc, _⟩ := List.append_inj' heq' hlen'
    exact h1 l1 a l2' hacc hlen b hf

theorem topoInv_trans (env : PgEnv) {acc mid res : List ObjectAddress}
    (hpre : ListPrefix mid res) (h1 : TopoInv env acc mid) (h2 : TopoInv env mid res) :
    TopoInv env acc res := by
  intro l1 a l2 heq hlen b hf
  by_cases hc : mid.length ≤ l1.length
  · exact h2 l1 a l2 heq hc b hf
  · push_neg at hc
    obtain ⟨t, ht⟩ := hpre
    have hmid : mid = res.take mid.length := by
      rw [ht, List.take_left]
    rw [heq] at hmid
    rw [List.take_append_eq_append_take] at hmid
    have hl1 : l1.take mid.length = l1 := List.take_of_length_le (Nat.le_of_lt hc)
    have hk : mid.length - l1.length = (mid.length - l1.length - 1) + 1 := by omega
    rw [hl1, hk] at hmid
    simp only [List.take_succ_cons] at hmid
    exact h1 l1 a (l2.take (mid.length - l1.length - 1)) hmid hlen b hf

theorem followPresent_of_rowsOut {env : PgEnv} {rank : Nat × Nat → Nat}
    {t : ObjectAddress} {acc res : List ObjectAddress}
    (h : RowsOut env rank t (rowsFor env t) acc res) :
    ∀ b, FollowEdge env t b → memKey b res = true := by
  intro b hf
  obtain ⟨⟨row, hrow, hc, ho, hn, href⟩, hsf⟩ := hf
  have hmemf : row ∈ rowsFor env t :=
    List.mem_filter.mpr ⟨hrow, by simp [hc, ho]⟩
  have := h.2.2.2.2.2 row hmemf hn (href ▸ hsf)
  rw [href] at this
  exact this

theorem rowsOut_main (env : PgEnv) (rank : Nat × Nat → Nat) (hr : RankHyp env rank)
    (recur : ObjectAddress → List ObjectAddress → Option (List ObjectAddress))
    (ih : ∀ t acc res, recur t acc = some res →
      RowsOut env rank t (rowsFor env t) acc res)
    (target : ObjectAddress) :
    ∀ rows acc res,
      (∀ row ∈ rows, row ∈ env.depend ∧ row.classid = target.classId ∧
        row.objid = target.objectId) →
      GetDependenciesRows env recur rows acc = some res →
      RowsOut env rank target rows acc res := by
  intro rows
  induction rows with
  | nil =>
    intro acc res hmem hres
    have : acc = res := by
      simpa [GetDependenciesRows] using hres
    subst this
    exact ⟨listPrefix_refl acc, fun x hx hnx => absurd hx hnx, fun h => h,
      fun _ h => h, topoInv_refl env acc, by simp⟩
  | cons row rest ihrows =>
    intro acc res hmem hres
    have hmemrest : ∀ r ∈ rest, r ∈ env.depend ∧ r.classid = target.classId ∧
        r.objid = target.objectId := fun r hrr => hmem r (List.mem_cons_of_mem _ hrr)
    by_cases h1 : row.deptype = DepType.normal
    · by_cases h2 : IsObjectAddressInList (refAddr row) acc = true
      · rw [rows_skip_inList env recur row rest acc h1 h2] at hres
        obtain ⟨rpre, rnew, rsub, rnd, rtopo, rrows⟩ := ihrows acc res hmemrest hres
        refine ⟨rpre, rnew, rsub, rnd, rtopo, ?_⟩
        intro r hrr hn hsf
        rcases List.mem_cons.mp hrr with rfl | hrr'
        · exact memKey_mono rpre (inList_memKey h2)
        · exact rrows r hrr' hn hsf
      · have h2' : IsObjectAddressInList (refAddr row) acc = false :=
          Bool.eq_false_iff.mpr h2
        by_cases h3 : ShouldFollowDependency env (refAddr row) = true
        · rw [rows_follow env recur row rest acc h1 h2' h3] at hres
          cases hcall : recur (refAddr row) acc with
          | none =>
            rw [hcall] at hres
            cases hres
          | some acc2 =>
            rw [hcall] at hres
            obtain ⟨fpre, fnew, fsub, fnd, ftopo, frows⟩ := ih (refAddr row) acc acc2 hcall
            have hdep : ∀ b, FollowEdge env (refAddr row) b → memKey b acc2 = true :=
              followPresent_of_rowsOut ⟨fpre, fnew, fsub, fnd, ftopo, frows⟩
            obtain ⟨rpre, rnew, rsub, rnd, rtopo, rrows⟩ :=
              ihrows (acc2 ++ [refAddr row]) res hmemrest hres
            obtain ⟨hrowdep, hrowc, hrowo⟩ := hmem row (List.mem_cons_self row rest)
            have hrkdep : rank (addrKey (refAddr row)) < rank (addrKey target) := by
              have := hr row hrowdep h1 h3
              simpa [refAddr, addrKey, hrowc, hrowo] using this
            have hprefAll : ListPrefix acc res :=
              listPrefix_trans (listPrefix_trans fpre
                (listPrefix_append acc2 [refAddr row])) rpre
            refine ⟨hprefAll, ?_, ?_, ?_, ?_, ?_⟩
            · intro x hx hnx
              by_cases hx2 : x ∈ acc2 ++ [refAddr row]
              · rcases List.mem_append.mp hx2 with hxa | hxd
                · obtain ⟨hsf', hs0', hrk'⟩ := fnew x hxa hnx
                  exact ⟨hsf', hs0', lt_trans hrk' hrkdep⟩
                · have hxeq : x = refAddr row := by simpa using hxd
                  subst hxeq
                  exact ⟨h3, rfl, hrkdep⟩
              · exact rnew x hx hx2
            · intro hs
              have hs2 : Sub0 (acc2 ++ [refAddr row]) := by
                intro x hx
                rcases List.mem_append.mp hx with hxa | hxd
                · exact fsub hs x hxa
                · have hxeq : x = refAddr row := by simpa using hxd
                  subst hxeq
                  rfl
              exact rsub hs2
            · intro hs hnd
              have hs2 : Sub0 (acc2 ++ [refAddr row]) := by
                intro x hx
                rcases List.mem_append.mp hx with hxa | hxd
                · exact fsub hs x hxa
                · have hxeq : x = refAddr row := by simpa using hxd
                  subst hxeq
                  rfl
              have hnd2 : NoDupKey acc2 := fnd hs hnd
              have hkey : ∀ c ∈ acc2, addrKey c ≠ addrKey (refAddr row) := by
                intro c hc
                by_cases hca : c ∈ acc
                · exact inList_false_keys h2' hs c hca
                · obtain ⟨_, _, hrk'⟩ := fnew c hc hca
                  intro he
                  rw [he] at hrk'
                  exact lt_irrefl _ hrk'
              have hnd3 : NoDupKey (acc2 ++ [refAddr row]) := by
                rw [NoDupKey, List.pairwise_append]
                refine ⟨hnd2, List.pairwise_singleton _ _, ?_⟩
                intro a ha b hb
                have hbeq : b = refAddr row := by simpa using hb
                subst hbeq
                exact hkey a ha
              exact rnd hs2 hnd3
            · exact topoInv_trans env rpre (topoInv_append env ftopo hdep) rtopo
            · intro r hrr hn hsf
              rcases List.mem_cons.mp hrr with rfl | hrr'
              · have : refAddr r ∈ acc2 ++ [refAddr r] :=
                  List.mem_append_right acc2 (List.mem_singleton_self _)
                exact memKey_mono rpre (memKey_of_mem this)
              · exact rrows r hrr' hn hsf
        · have h3' : ShouldFollowDependency env (refAddr row) = false :=
            Bool.eq_false_iff.mpr h3
          rw [rows_skip_notFollow env recur row rest acc h1 h2' h3'] at hres
          obtain ⟨rpre, rnew, rsub, rnd, rtopo, rrows⟩ := ihrows acc res hmemrest hres
          refine ⟨rpre, rnew, rsub, rnd, rtopo, ?_⟩
          intro r hrr hn hsf
          rcases List.mem_cons.mp hrr with rfl | hrr'
          · rw [hsf] at h3'
            cases h3'
          · exact rrows r hrr' hn hsf
    · rw [rows_skip_nonnormal env recur row rest acc h1] at hres
      obtain ⟨rpre, rnew, rsub, rnd, rtopo, rrows⟩ := ihrows acc res hmemrest hres
      refine ⟨rpre, rnew, rsub, rnd, rtopo, ?_⟩
      intro r hrr hn hsf
      rcases List.mem_cons.mp hrr with rfl | hrr'
      · exact absurd hn h1
      · exact rrows r hrr' hn hsf

theorem fuelOut (env : PgEnv) (rank : Nat × Nat → Nat) (hr : RankHyp env rank) :
    ∀ fuel target acc res, GetDependenciesForObject fuel env target acc = some res →
      RowsOut env rank target (rowsFor env target) acc res := by
  intro fuel
  induction fuel with
  | zero =>
    intro t acc res h
    cases h
  | succ f ihf =>
    intro t acc res h
    have heq : GetDependenciesForObject (f + 1) env t acc =
        GetDependenciesRows env (fun d a => GetDependenciesForObject f env d a)
          (rowsFor env t) acc := rfl
    rw [heq] at h
    refine rowsOut_main env rank hr _ (fun t' acc' res' hc => ihf t' acc' res' hc) t
      (rowsFor env t) acc res ?_ h
    intro row hrow
    have := List.mem_filter.mp hrow
    refine ⟨this.1, ?_, ?_⟩
    · have h2 := this.2
      simp only [Bool.and_eq_true, beq_iff_eq] at h2
      exact h2.1
    · have h2 := this.2
      simp only [Bool.and_eq_true, beq_iff_eq] at h2
      exact h2.2

theorem resolve_terminates_aux (env : PgEnv) (rank : Nat × Nat → Nat)
    (hr : RankHyp env rank) :
    ∀ fuel target acc, rank (addrKey target) < fuel →
      ∃ res, GetDependenciesForObject fuel env target acc = some res := by
  intro fuel
  induction fuel with
  | zero =>
    intro t acc h
    omega
  | succ f ihf =>
    intro t acc h
    have heq : GetDependenciesForObject (f + 1) env t acc =
        GetDependenciesRows env (fun d a => GetDependenciesForObject f env d a)
          (rowsFor env t) acc := rfl
    rw [heq]
    have hrows : ∀ rows,
        (∀ row ∈ rows, row ∈ env.depend ∧ row.classid = t.classId ∧
          row.objid = t.objectId) →
        ∀ acc2, ∃ res,
          GetDependenciesRows env (fun d a => GetDependenciesForObject f env d a)
            rows acc2 = some res := by
      intro rows
      induction rows with
      | nil =>
        intro _ acc2
        exact ⟨acc2, rfl⟩
      | cons row rest ihr =>
        intro hmem acc2
        have hmemrest := fun r hrr => hmem r (List.mem_cons_of_mem _ hrr)
        by_cases h1 : row.deptype = DepType.normal
        · by_cases h2 : IsObjectAddressInList (refAddr row) acc2 = true
          · rw [rows_skip_inList env _ row rest acc2 h1 h2]
            exact ihr hmemrest acc2
          · have h2' := Bool.eq_false_iff.mpr h2
            by_cases h3 : ShouldFollowDependency env (refAddr row) = true
            · rw [rows_follow env _ row rest acc2 h1 h2' h3]
              obtain ⟨hrowdep, hc, ho⟩ := hmem row (List.mem_cons_self row rest)
              have hlt : rank (addrKey (refAddr row)) < f := by
                have hstep := hr row hrowdep h1 h3
                have h4 : rank (addrKey (refAddr row)) < rank (addrKey t) := by
                  simpa [refAddr, addrKey, hc, ho] using hstep
                omega
              obtain ⟨acc3, hacc3⟩ := ihf (refAddr row) acc2 hlt
              rw [hacc3]
              exact ihr hmemrest (acc3 ++ [refAddr row])
            · have h3' := Bool.eq_false_iff.mpr h3
              rw [rows_skip_notFollow env _ row rest acc2 h1 h2' h3']
              exact ihr hmemrest acc2
        · rw [rows_skip_nonnormal env _ row rest acc2 h1]
          exact ihr hmemrest acc2
    refine hrows (rowsFor env t) ?_ acc
    intro row hrow
    have hm := List.mem_filter.mp hrow
    have h2 := hm.2
    simp only [Bool.and_eq_true, beq_iff_eq] at h2
    exact ⟨hm.1, h2.1, h2.2⟩

theorem cyc_diverges : ∀ fuel,
    GetDependenciesForObject fuel envCyc addrCycA [] = none ∧
    GetDependenciesForObject fuel envCyc addrCycB [] = none := by
  intro fuel
  induction fuel with
  | zero => exact ⟨rfl, rfl⟩
  | succ f ihf =>
    constructor
    · have heq : GetDependenciesForObject (f + 1) envCyc addrCycA [] =
          GetDependenciesRows envCyc
            (fun d a => GetDependenciesForObject f envCyc d a) [rowCycAB] [] := rfl
      rw [heq, rows_follow envCyc _ rowCycAB [] [] rfl rfl (by decide)]
      have hb : refAddr rowCycAB = addrCycB := rfl
      rw [hb]
      simp only [ihf.2]
    · have heq : GetDependenciesForObject (f + 1) envCyc addrCycB [] =
          GetDependenciesRows envCyc
            (fun d a => GetDependenciesForObject f envCyc d a) [rowCycBA] [] := rfl
      rw [heq, rows_follow envCyc _ rowCycBA [] [] rfl rfl (by decide)]
      have ha : refAddr rowCycBA = addrCycA := rfl
      rw [ha]
      simp only [ihf.1]

theorem pairwise_of_topo (env : PgEnv) :
    ∀ (suf pre res : List ObjectAddress),
      res = pre ++ suf → NoDupKey res → TopoInv env [] res →
      suf.Pairwise (fun a b => ¬ FollowEdge env a b) := by
  intro suf
  induction suf with
  | nil =>
    intro pre res _ _ _
    exact List.Pairwise.nil
  | cons x suf' ihs =>
    intro pre res heq hnd htopo
    constructor
    · intro b hb hf
      have hmemb : memKey b pre = true :=
        htopo pre x suf' heq (Nat.zero_le _) b hf
      obtain ⟨c, hc, hck⟩ := memKey_iff.mp hmemb
      have hnd' : (pre ++ x :: suf').Pairwise (fun a b => addrKey a ≠ addrKey b) :=
        heq ▸ hnd
      have hcross := (List.pairwise_append.mp hnd').2.2
      exact hcross c hc b (List.mem_cons_of_mem x hb) hck
    · exact ihs (pre ++ [x]) res (by rw [heq]; simp) hnd htopo

/-- C1: over a dependency store whose rows are all Normal edges between
followed (supported-kind) objects, and whose followed sub-graph descends along
a rank (the graphs for which a topological order exists), whenever
GetDependenciesForObject started with an empty accumulator returns a list, no
address appears twice in it, no entry has a Normal edge to a later entry, and
every Normal-edge dependency of an entry is key-present strictly before it. -/
theorem c1_resolve_topological (env : PgEnv) (rank : Nat × Nat → Nat)
    (hnormal : ∀ row ∈ env.depend, row.deptype = DepType.normal)
    (hfollow : ∀ row ∈ env.depend, ShouldFollowDependency env (refAddr row) = true)
    (hrank : RankHyp env rank) (fuel : Nat) (target : ObjectAddress)
    (res : List ObjectAddress)
    (hres : GetDependenciesForObject fuel env target [] = some res) :
    res.Nodup ∧
    res.Pairwise (fun a b => ¬ NormalEdge env a b) ∧
    (∀ l1 a l2, res = l1 ++ a :: l2 → ∀ b, NormalEdge env a b →
      memKey b l1 = true) := by
  have F := fuelOut env rank hrank fuel target [] res hres
  have hnd : NoDupKey res :=
    F.2.2.2.1 (fun x hx => absurd hx (List.not_mem_nil x)) List.Pairwise.nil
  have htopo : TopoInv env [] res := F.2.2.2.2.1
  have hne_fe : ∀ a b, NormalEdge env a b → FollowEdge env a b := by
    intro a b hne
    obtain ⟨row, hrow, hc, ho, hn, href⟩ := hne
    exact ⟨⟨row, hrow, hc, ho, hn, href⟩, href ▸ hfollow row hrow⟩
  refine ⟨?_, ?_, ?_⟩
  · exact hnd.imp (fun h he => h (congrArg addrKey he))
  · have hpw : res.Pairwise (fun a b => ¬ FollowEdge env a b) :=
      pairwise_of_topo env res [] res rfl hnd htopo
    exact hpw.imp (fun h hne => h (hne_fe _ _ hne))
  · intro l1 a l2 heq b hne
    exact htopo l1 a l2 heq (Nat.zero_le _) b (hne_fe a b hne)

theorem c1_witness :
    (∀ row ∈ env1.depend, row.deptype = DepType.normal) ∧
    (∀ row ∈ env1.depend, ShouldFollowDependency env1 (refAddr row) = true) ∧
    RankHyp env1 rank1 ∧
    GetDependenciesForObject 4 env1 addrT [] = some [addrB, addrA] ∧
    ([addrB, addrA].Nodup ∧
      ([addrB, addrA] : List ObjectAddress).Pairwise
        (fun a b => ¬ NormalEdge env1 a b) ∧
      (∀ l1 a l2, ([addrB, addrA] : List ObjectAddress) = l1 ++ a :: l2 →
        ∀ b, NormalEdge env1 a b → memKey b l1 = true)) :=
  ⟨by decide, by decide, by decide, by decide,
    c1_resolve_topological env1 rank1 (by decide) (by decide) (by decide) 4 addrT
      [addrB, addrA] (by decide)⟩

/-- C2 (counterexample): on a store whose two Normal edges form a cycle
between two composite types, GetDependenciesForObject never returns, whatever
recursion depth it is allowed: an object whose traversal is in progress is not
yet in the accumulator, so the cycle is re-entered forever. -/
theorem c2_counterexample :
    ¬ ∃ fuel res, GetDependenciesForObject fuel envCyc addrCycA [] = some res := by
  rintro ⟨fuel, res, h⟩
  rw [(cyc_diverges fuel).1] at h
  cases h

/-- C2 (amended): an object already enqueued in the accumulator is indeed
never re-visited (its row is skipped without recursion), but that bounds the
traversal only when the followed Normal edges descend along some rank
(are acyclic): in that case fuel beyond the target's rank suffices and
GetDependenciesForObject terminates with a result. -/
theorem c2_terminates_when_acyclic (env : PgEnv) (rank : Nat × Nat → Nat)
    (hr : RankHyp env rank) (fuel : Nat) (target : ObjectAddress)
    (acc : List ObjectAddress) (hfuel : rank (addrKey target) < fuel) :
    (∃ res, GetDependenciesForObject fuel env target acc = some res) ∧
    (∀ recur row rest acc2, IsObjectAddressInList (refAddr row) acc2 = true →
      GetDependenciesRows env recur (row :: rest) acc2 =
        GetDependenciesRows env recur rest acc2) := by
  constructor
  · exact resolve_terminates_aux env rank hr fuel target acc hfuel
  · intro recur row rest acc2 h2
    by_cases h1 : row.deptype = DepType.normal
    · exact rows_skip_inList env recur row rest acc2 h1 h2
    · exact rows_skip_nonnormal env recur row rest acc2 h1

theorem c2_witness :
    RankHyp env1 rank1 ∧ rank1 (addrKey addrT) < 201 ∧
    ((∃ res, GetDependenciesForObject 201 env1 addrT [] = some res) ∧
      (∀ recur row rest acc2, IsObjectAddressInList (refAddr row) acc2 = true →
        GetDependenciesRows env1 recur (row :: rest) acc2 =
          GetDependenciesRows env1 recur rest acc2)) :=
  ⟨by decide, by decide,
    c2_terminates_when_acyclic env1 rank1 (by decide) 201 addrT [] (by decide)⟩

/-- C3 (counterexample): recordObjectDistributed is not an idempotent insert:
inserting an identifier that is already present changes the catalog (a
duplicate row is appended) instead of being a no-op. -/
theorem c3_counterexample :
    isObjectDistributed [⟨TypeRelationId, "public.t"⟩]
        ⟨TypeRelationId, "public.t"⟩ = true ∧
    recordObjectDistributed [⟨TypeRelationId, "public.t"⟩]
        ⟨TypeRelationId, "public.t"⟩ ≠ [⟨TypeRelationId, "public.t"⟩] := by
  decide

/-- C3 (amended): recordObjectDistributed inserts unconditionally and never
raises: inserting an identifier already present in the catalog grows the
catalog by one row, leaving the identifier present at least twice; callers
avoid this by checking first (ShouldFollowDependency skips objects already in
pg_dist_object). -/
theorem c3_record_always_inserts (catalog : List DistObjectAddress)
    (d : DistObjectAddress) (h : isObjectDistributed catalog d = true) :
    (recordObjectDistributed catalog d).length = catalog.length + 1 ∧
    2 ≤ (recordObjectDistributed catalog d).count d ∧
    isObjectDistributed (recordObjectDistributed catalog d) d = true := by
  refine ⟨by simp [recordObjectDistributed], ?_, ?_⟩
  · obtain ⟨r, hr, hp⟩ := List.any_eq_true.mp h
    simp only [Bool.and_eq_true, beq_iff_eq] at hp
    have hrd : r = d := by
      cases r
      cases d
      simp_all
    subst hrd
    have h1 : 0 < catalog.count r := List.count_pos_iff.mpr hr
    have h2 : List.count r [r] = 1 := by simp
    simp only [recordObjectDistributed, List.count_append]
    omega
  · simp only [recordObjectDistributed, isObjectDistributed, List.any_append,
      Bool.or_eq_true]
    right
    simp

theorem c3_witness :
    isObjectDistributed [⟨NamespaceRelationId, "app"⟩] ⟨NamespaceRelationId, "app"⟩ = true ∧
    ((recordObjectDistributed [⟨NamespaceRelationId, "app"⟩]
        ⟨NamespaceRelationId, "app"⟩).length = 2 ∧
      2 ≤ (recordObjectDistributed [⟨NamespaceRelationId, "app"⟩]
        ⟨NamespaceRelationId, "app"⟩).count ⟨NamespaceRelationId, "app"⟩ ∧
      isObjectDistributed (recordObjectDistributed [⟨NamespaceRelationId, "app"⟩]
        ⟨NamespaceRelationId, "app"⟩) ⟨NamespaceRelationId, "app"⟩ = true) :=
  ⟨by decide,
    c3_record_always_inserts [⟨NamespaceRelationId, "app"⟩]
      ⟨NamespaceRelationId, "app"⟩ (by decide)⟩

theorem members_follow (env : PgEnv) :
    ∀ fuel target acc res, GetDependenciesForObject fuel env target acc = some res →
      ListPrefix acc res ∧ ∀ x ∈ res, x ∉ acc →
        ShouldFollowDependency env x = true := by
  intro fuel
  induction fuel with
  | zero =>
    intro t acc res h
    cases h
  | succ f ihf =>
    intro t acc res h
    have heq : GetDependenciesForObject (f + 1) env t acc =
        GetDependenciesRows env (fun d a => GetDependenciesForObject f env d a)
          (rowsFor env t) acc := rfl
    rw [heq] at h
    have hrows : ∀ rows acc2 res2,
        GetDependenciesRows env (fun d a => GetDependenciesForObject f env d a)
          rows acc2 = some res2 →
        ListPrefix acc2 res2 ∧ ∀ x ∈ res2, x ∉ acc2 →
          ShouldFollowDependency env x = true := by
      intro rows
      induction rows with
      | nil =>
        intro acc2 res2 h2
        have hae : acc2 = res2 := by simpa [GetDependenciesRows] using h2
        subst hae
        exact ⟨listPrefix_refl _, fun x hx hnx => absurd hx hnx⟩
      | cons row rest ihr =>
        intro acc2 res2 h2
        by_cases h1 : row.deptype = DepType.normal
        · by_cases hil : IsObjectAddressInList (refAddr row) acc2 = true
          · rw [rows_skip_inList env _ row rest acc2 h1 hil] at h2
            exact ihr acc2 res2 h2
          · have hil' := Bool.eq_false_iff.mpr hil
            by_cases hsf : ShouldFollowDependency env (refAddr row) = true
            · rw [rows_follow env _ row rest acc2 h1 hil' hsf] at h2
              cases hcall : GetDependenciesForObject f env (refAddr row) acc2 with
              | none =>
                rw [hcall] at h2
                cases h2
              | some acc3 =>
                rw [hcall] at h2
                obtain ⟨fpre, fnew⟩ := ihf (refAddr row) acc2 acc3 hcall
                obtain ⟨rpre, rnew⟩ := ihr (acc3 ++ [refAddr row]) res2 h2
                constructor
                · exact listPrefix_trans (listPrefix_trans fpre
                    (listPrefix_append acc3 [refAddr row])) rpre
                · intro x hx hnx
                  by_cases hx2 : x ∈ acc3 ++ [refAddr row]
                  · rcases List.mem_append.mp hx2 with hxa | hxd
                    · exact fnew x hxa hnx
                    · have hxe : x = refAddr row := by simpa using hxd
                      subst hxe
                      exact hsf
                  · exact rnew x hx hx2
            · have hsf' := Bool.eq_false_iff.mpr hsf
              rw [rows_skip_notFollow env _ row rest acc2 h1 hil' hsf'] at h2
              exact ihr acc2 res2 h2
        · rw [rows_skip_nonnormal env _ row rest acc2 h1] at h2
          exact ihr acc2 res2 h2
    exact hrows (rowsFor env t) acc res h

theorem shouldFollow_true_not_excluded {env : PgEnv} {x : ObjectAddress}
    (h : ShouldFollowDependency env x = true) :
    IsObjectAddressOwnedByExtension env x = false ∧ IsInPgDistObject env x = false := by
  by_cases h1 : IsObjectAddressOwnedByExtension env x = true
  · simp [ShouldFollowDependency, h1] at h
  · have h1' := Bool.eq_false_iff.mpr h1
    by_cases h2 : IsInPgDistObject env x = true
    · simp [ShouldFollowDependency, h1', h2] at h
    · exact ⟨h1', Bool.eq_false_iff.mpr h2⟩

/-- C4: every address in a resolved dependency list is neither owned by a
bundled extension nor already present in pg_dist_object, and a pg_depend row
whose dependency is extension-owned or already distributed is skipped without
recursing into that dependency (the recursive walk is not invoked and the
accumulator is unchanged). -/
theorem c4_excluded_objects (env : PgEnv) :
    (∀ fuel target res, GetDependenciesForObject fuel env target [] = some res →
      ∀ x ∈ res, IsObjectAddressOwnedByExtension env x = false ∧
        IsInPgDistObject env x = false) ∧
    (∀ recur row rest acc,
      (IsObjectAddressOwnedByExtension env (refAddr row) = true ∨
        IsInPgDistObject env (refAddr row) = true) →
      GetDependenciesRows env recur (row :: rest) acc =
        GetDependenciesRows env recur rest acc) := by
  constructor
  · intro fuel target res h x hx
    exact shouldFollow_true_not_excluded
      ((members_follow env fuel target [] res h).2 x hx (List.not_mem_nil x))
  · intro recur row rest acc hexc
    by_cases h1 : row.deptype = DepType.normal
    · by_cases hil : IsObjectAddressInList (refAddr row) acc = true
      · exact rows_skip_inList env recur row rest acc h1 hil
      · have hil' := Bool.eq_false_iff.mpr hil
        have hsf : ShouldFollowDependency env (refAddr row) = false := by
          rcases hexc with he | hd
          · simp [ShouldFollowDependency, he]
          · simp [ShouldFollowDependency, hd]
        exact rows_skip_notFollow env recur row rest acc h1 hil' hsf
    · exact rows_skip_nonnormal env recur row rest acc h1

theorem c4_witness :
    GetDependenciesForObject 3 envC4 addrC4T [] = some [] ∧
    IsObjectAddressOwnedByExtension envC4 addrE = true ∧
    IsInPgDistObject envC4 addrD = true ∧
    (∀ x ∈ ([] : List ObjectAddress),
      IsObjectAddressOwnedByExtension envC4 x = false ∧
        IsInPgDistObject envC4 x = false) ∧
    GetDependenciesRows envC4 (fun _ a => some a)
        [⟨TypeRelationId, 300, 0, TypeRelationId, 301, 0, DepType.normal⟩] [] =
      GetDependenciesRows envC4 (fun _ a => some a) [] [] :=
  ⟨by decide, by decide, by decide,
    (c4_excluded_objects envC4).1 3 addrC4T [] (by decide),
    (c4_excluded_objects envC4).2 (fun _ a => some a) _ [] [] (Or.inl (by decide))⟩

theorem sendBare_ok_of_tolerable {outcomes : List RemoteOutcome}
    (h : ∀ o ∈ outcomes, o = RemoteOutcome.ok ∨ o = RemoteOutcome.valueAlreadyExists) :
    SendBareOptionalCommandListToWorkersAsUser outcomes = true :=
  List.all_eq_true.mpr (fun o ho => by rcases h o ho with rfl | rfl <;> rfl)

theorem sendBare_false_of_failure {outcomes : List RemoteOutcome}
    (h : ∃ o ∈ outcomes, o = RemoteOutcome.failure) :
    SendBareOptionalCommandListToWorkersAsUser outcomes = false := by
  obtain ⟨o, ho, rfl⟩ := h
  rw [Bool.eq_false_iff]
  intro hall
  have := List.all_eq_true.mp hall _ ho
  cases this

/-- C5: for a distributed enum's ADD VALUE alteration the propagator takes the
optimistic path outside the transactional protocol and never raises an error;
when every node either applies the change or reports the value already exists
no warning is raised; when some node fails for another reason a warning is
raised whose retry detail is the same statement deparsed with IF NOT EXISTS
set, and the statement keeps its original skipIfNewValExists flag. -/
theorem c5_alter_enum_optimistic (identifier : String)
    (outcomes : List RemoteOutcome) (stmt : AlterEnumStmt)
    (hadd : stmt.oldVal = none) :
    (PlanAlterEnumStmt true identifier outcomes stmt).usedTransactionalProtocol =
      false ∧
    (PlanAlterEnumStmt true identifier outcomes stmt).raisedError = false ∧
    ((∀ o ∈ outcomes, o = RemoteOutcome.ok ∨ o = RemoteOutcome.valueAlreadyExists) →
      (PlanAlterEnumStmt true identifier outcomes stmt).warningDetail = none) ∧
    ((∃ o ∈ outcomes, o = RemoteOutcome.failure) →
      (PlanAlterEnumStmt true identifier outcomes stmt).warningDetail =
        some (deparse_alter_enum_stmt identifier
          { stmt with skipIfNewValExists := true }) ∧
      (PlanAlterEnumStmt true identifier outcomes stmt).stmtAfter = stmt) := by
  by_cases hres : SendBareOptionalCommandListToWorkersAsUser outcomes = true
  · refine ⟨?_, ?_, ?_, ?_⟩
    · simp [PlanAlterEnumStmt, hadd, hres]
    · simp [PlanAlterEnumStmt, hadd, hres]
    · intro _
      simp [PlanAlterEnumStmt, hadd, hres]
    · intro hfail
      rw [sendBare_false_of_failure hfail] at hres
      cases hres
  · have hres' := Bool.eq_false_iff.mpr hres
    refine ⟨?_, ?_, ?_, ?_⟩
    · simp [PlanAlterEnumStmt, hadd, hres']
    · simp [PlanAlterEnumStmt, hadd, hres']
    · intro hall
      rw [sendBare_ok_of_tolerable hall] at hres'
      cases hres'
    · intro _
      constructor
      · simp [PlanAlterEnumStmt, hadd, hres']
      · simp only [PlanAlterEnumStmt, hadd, hres']
        cases stmt
        simp_all

theorem c5_witness :
    (⟨none, "archived", none, false, false⟩ : AlterEnumStmt).oldVal = none ∧
    ((PlanAlterEnumStmt true "public.status"
        [RemoteOutcome.ok, RemoteOutcome.failure]
        ⟨none, "archived", none, false, false⟩).usedTransactionalProtocol = false ∧
      (PlanAlterEnumStmt true "public.status"
        [RemoteOutcome.ok, RemoteOutcome.failure]
        ⟨none, "archived", none, false, false⟩).raisedError = false ∧
      ((∀ o ∈ [RemoteOutcome.ok, RemoteOutcome.failure],
          o = RemoteOutcome.ok ∨ o = RemoteOutcome.valueAlreadyExists) →
        (PlanAlterEnumStmt true "public.status"
          [RemoteOutcome.ok, RemoteOutcome.failure]
          ⟨none, "archived", none, false, false⟩).warningDetail = none) ∧
      ((∃ o ∈ [RemoteOutcome.ok, RemoteOutcome.failure],
          o = RemoteOutcome.failure) →
        (PlanAlterEnumStmt true "public.status"
          [RemoteOutcome.ok, RemoteOutcome.failure]
          ⟨none, "archived", none, false, false⟩).warningDetail =
          some (deparse_alter_enum_stmt "public.status"
            { (⟨none, "archived", none, false, false⟩ : AlterEnumStmt) with
                skipIfNewValExists := true }) ∧
        (PlanAlterEnumStmt true "public.status"
          [RemoteOutcome.ok, RemoteOutcome.failure]
          ⟨none, "archived", none, false, false⟩).stmtAfter =
          ⟨none, "archived", none, false, false⟩)) :=
  ⟨rfl, c5_alter_enum_optimistic "public.status"
    [RemoteOutcome.ok, RemoteOutcome.failure]
    ⟨none, "archived", none, false, false⟩ rfl⟩

/-- C6 (code behavior at the failing input): for an enum declared as
('b', 'a') — label 'b' stored with sort order 1, label 'a' with sort order 2 —
enum_vals_list returns the labels in the order of the pg_enum typid+label
index it scans with, ['a', 'b'], not the stored definition order ['b', 'a'],
and the recreated statement renders them in that wrong order (each as a quoted
literal). -/
theorem c6_code_bug_eval :
    enum_vals_list pgEnum0 500 = ["a", "b"] ∧
    enumValsBySortOrder pgEnum0 500 = ["b", "a"] ∧
    enum_vals_list pgEnum0 500 ≠ enumValsBySortOrder pgEnum0 500 ∧
    deparse_create_enum_stmt (RecreateEnumStmt pgEnum0 (fun _ => "public.grade") 500) =
      "CREATE TYPE public.grade AS ENUM ('a', 'b');" := by
  decide

/-- C7 (counterexample): at an address of unsupported kind — a pg_class
relation — the spec-shaped ToPortable fails with UnsupportedKind, but the
source getDistObjectAddressFromPg succeeds and returns the (classId, identity)
pair: the code has no failure path for unsupported kinds. -/
theorem c7_counterexample :
    isSupportedObjectKind (fun _ => TypType.base) ⟨RelationRelationId, 400, 0⟩ =
      false ∧
    toPortableSpec (fun _ => TypType.base) (fun _ => "pg_class.t")
        ⟨RelationRelationId, 400, 0⟩ = Except.error CodecError.unsupportedKind ∧
    getDistObjectAddressFromPg (fun _ => "pg_class.t")
        ⟨RelationRelationId, 400, 0⟩ = ⟨RelationRelationId, "pg_class.t"⟩ :=
  ⟨rfl, rfl, rfl⟩

/-- C7 (amended): getDistObjectAddressFromPg never fails for supported kinds —
indeed for any kind: it always returns the classId paired with the object's
identity string.  The UnsupportedKind failure lives in the reverse mapping,
getObjectAddresFromCitus, which raises it exactly for class ids other than
types and namespaces. -/
theorem c7_to_portable_total (identity : ObjectAddress → String)
    (lookupType lookupNamespace : String → Option Nat) (addr : ObjectAddress)
    (d : DistObjectAddress) (h1 : d.classId ≠ TypeRelationId)
    (h2 : d.classId ≠ NamespaceRelationId) :
    getDistObjectAddressFromPg identity addr =
      { classId := addr.classId, identifier := identity addr } ∧
    getObjectAddresFromCitus lookupType lookupNamespace d =
      Except.error CodecError.unsupportedKind := by
  exact ⟨rfl, by simp [getObjectAddresFromCitus, h1, h2]⟩

theorem c7_witness :
    (⟨RelationRelationId, "pg_class.t"⟩ : DistObjectAddress).classId ≠
      TypeRelationId ∧
    (⟨RelationRelationId, "pg_class.t"⟩ : DistObjectAddress).classId ≠
      NamespaceRelationId ∧
    (getDistObjectAddressFromPg (fun _ => "pg_class.t")
        ⟨RelationRelationId, 400, 0⟩ =
      { classId := (⟨RelationRelationId, 400, 0⟩ : ObjectAddress).classId,
        identifier := "pg_class.t" } ∧
      getObjectAddresFromCitus (fun _ => none) (fun _ => none)
          ⟨RelationRelationId, "pg_class.t"⟩ =
        Except.error CodecError.unsupportedKind) :=
  ⟨by decide, by decide,
    c7_to_portable_total (fun _ => "pg_class.t") (fun _ => none) (fun _ => none)
      ⟨RelationRelationId, 400, 0⟩ ⟨RelationRelationId, "pg_class.t"⟩
      (by decide) (by decide)⟩

/-- C8: the de-duplication membership test returns true exactly when some
entry shares the classId and objectId and has either the same objectSubId or
objectSubId zero; in particular a whole-object entry satisfies any sub-object
request of the same object, and a sub-object entry never satisfies a
whole-object request (any positive match for a whole-object request comes from
an entry with objectSubId zero). -/
theorem c8_in_list_semantics (find : ObjectAddress) (l : List ObjectAddress) :
    (IsObjectAddressInList find l = true ↔
      ∃ cur ∈ l, cur.classId = find.classId ∧ cur.objectId = find.objectId ∧
        (cur.objectSubId = find.objectSubId ∨ cur.objectSubId = 0)) ∧
    (∀ cur ∈ l, cur.classId = find.classId → cur.objectId = find.objectId →
      cur.objectSubId = 0 → IsObjectAddressInList find l = true) ∧
    (find.objectSubId = 0 → IsObjectAddressInList find l = true →
      ∃ cur ∈ l, cur.classId = find.classId ∧ cur.objectId = find.objectId ∧
        cur.objectSubId = 0) := by
  have hiff : IsObjectAddressInList find l = true ↔
      ∃ cur ∈ l, cur.classId = find.classId ∧ cur.objectId = find.objectId ∧
        (cur.objectSubId = find.objectSubId ∨ cur.objectSubId = 0) := by
    simp only [IsObjectAddressInList, List.any_eq_true, Bool.and_eq_true,
      Bool.or_eq_true, beq_iff_eq]
    constructor
    · rintro ⟨c, hc, ⟨h1, h2⟩, h3 | h3⟩
      · exact ⟨c, hc, h1.symm, h2.symm, Or.inl h3.symm⟩
      · exact ⟨c, hc, h1.symm, h2.symm, Or.inr h3⟩
    · rintro ⟨c, hc, h1, h2, h3 | h3⟩
      · exact ⟨c, hc, ⟨h1.symm, h2.symm⟩, Or.inl h3.symm⟩
      · exact ⟨c, hc, ⟨h1.symm, h2.symm⟩, Or.inr h3⟩
  refine ⟨hiff, ?_, ?_⟩
  · intro cur hcur h1 h2 h3
    exact hiff.mpr ⟨cur, hcur, h1, h2, Or.inr h3⟩
  · intro hzero hin
    obtain ⟨cur, hcur, h1, h2, h3 | h3⟩ := hiff.mp hin
    · exact ⟨cur, hcur, h1, h2, hzero ▸ h3⟩
    · exact ⟨cur, hcur, h1, h2, h3⟩

theorem c8_witness :
    ((IsObjectAddressInList ⟨TypeRelationId, 7, 3⟩
        [⟨TypeRelationId, 7, 0⟩] = true ↔
      ∃ cur ∈ [(⟨TypeRelationId, 7, 0⟩ : ObjectAddress)],
        cur.classId = TypeRelationId ∧ cur.objectId = 7 ∧
          (cur.objectSubId = 3 ∨ cur.objectSubId = 0)) ∧
      (∀ cur ∈ [(⟨TypeRelationId, 7, 0⟩ : ObjectAddress)],
        cur.classId = TypeRelationId → cur.objectId = 7 →
        cur.objectSubId = 0 →
        IsObjectAddressInList ⟨TypeRelationId, 7, 3⟩
          [⟨TypeRelationId, 7, 0⟩] = true) ∧
      ((⟨TypeRelationId, 7, 3⟩ : ObjectAddress).objectSubId = 0 →
        IsObjectAddressInList ⟨TypeRelationId, 7, 3⟩
          [⟨TypeRelationId, 7, 0⟩] = true →
        ∃ cur ∈ [(⟨TypeRelationId, 7, 0⟩ : ObjectAddress)],
          cur.classId = TypeRelationId ∧ cur.objectId = 7 ∧
            cur.objectSubId = 0)) ∧
    IsObjectAddressInList ⟨TypeRelationId, 7, 0⟩ [⟨TypeRelationId, 7, 5⟩] =
      false :=
  ⟨c8_in_list_semantics ⟨TypeRelationId, 7, 3⟩ [⟨TypeRelationId, 7, 0⟩],
    by decide⟩

theorem ensure_loop_no_workers (denv : DdlEnv) :
    ∀ deps trace, EnsureDependenciesLoop denv [] deps none trace = trace := by
  intro deps
  induction deps with
  | nil =>
    intro trace
    rfl
  | cons dep rest ihd =>
    intro trace
    by_cases hc : (GetDependencyCreateDDLCommands denv dep).length ≤ 0
    · simp only [EnsureDependenciesLoop, if_pos hc]
      exact ihd trace
    · simp only [EnsureDependenciesLoop, if_neg hc]
      rfl

/-- C9: when the node directory reports zero active nodes, the propagation
loop aborts when the first prerequisite needing network work is reached: no
statement is executed on any node, nothing is recorded in pg_dist_object, and
no connection is opened. -/
theorem c9_zero_nodes_aborts (env : PgEnv) (denv : DdlEnv)
    (target : ObjectAddress) (fuel : Nat) (trace : PropagationTrace)
    (h : EnsureDependenciesExistsOnAllNodes env denv [] target fuel = some trace) :
    trace.executed = [] ∧ trace.recorded = [] ∧ trace.opened = [] := by
  unfold EnsureDependenciesExistsOnAllNodes at h
  cases hres : GetDependenciesForObject fuel env target [] with
  | none =>
    rw [hres] at h
    cases h
  | some deps =>
    rw [hres] at h
    simp only [Option.map_some'] at h
    have ht : trace = EnsureDependenciesLoop denv [] deps none
        { executed := [], recorded := [], opened := [] } := by
      cases h
      rfl
    rw [ht, ensure_loop_no_workers denv deps]
    exact ⟨rfl, rfl, rfl⟩

theorem c9_witness :
    EnsureDependenciesExistsOnAllNodes env1
        ⟨fun _ => none, fun _ => ["CREATE TYPE public.t AS (a int)"]⟩ [] addrT 4 =
      some ⟨[], [], []⟩ ∧
    ((⟨[], [], []⟩ : PropagationTrace).executed = [] ∧
      (⟨[], [], []⟩ : PropagationTrace).recorded = [] ∧
      (⟨[], [], []⟩ : PropagationTrace).opened = []) :=
  ⟨rfl, c9_zero_nodes_aborts env1
    ⟨fun _ => none, fun _ => ["CREATE TYPE public.t AS (a int)"]⟩ addrT 4
    ⟨[], [], []⟩ rfl⟩

/-- C10 (code behavior at the failing input): worker_create_if_not_exists on
an enum-creation statement for a type that does not exist locally raises
"type does not exist" (EnumTypeExists looks the name up with missing_ok set to
false) instead of executing the statement and returning true; the composite
path behaves as the claim states (missing_ok is true there), the
already-exists path returns false without executing, and other statement
kinds raise. -/
theorem c10_code_bug_eval :
    worker_create_if_not_exists ⟨fun _ => none⟩
        (ParseTree.createEnumStmt ⟨["public", "mood"]⟩) =
      Except.error PgError.typeDoesNotExist ∧
    worker_create_if_not_exists ⟨fun _ => none⟩
        (ParseTree.compositeTypeStmt ⟨["public", "mood"]⟩) =
      Except.ok ⟨true, true⟩ ∧
    worker_create_if_not_exists
        ⟨fun n => if n = ["public", "mood"] then some 16384 else none⟩
        (ParseTree.createEnumStmt ⟨["public", "mood"]⟩) =
      Except.ok ⟨false, false⟩ ∧
    worker_create_if_not_exists
        ⟨fun n => if n = ["public", "mood"] then some 16384 else none⟩
        (ParseTree.compositeTypeStmt ⟨["public", "mood"]⟩) =
      Except.ok ⟨false, false⟩ ∧
    worker_create_if_not_exists ⟨fun _ => none⟩ ParseTree.otherStmt =
      Except.error PgError.unsupportedCreateStatement :=
  ⟨rfl, rfl, rfl, rfl, rfl⟩
